import Mathlib

/-!
Verification of the equipment-tracking core of `backend/services/tracking_service.py`.

The embedding models Python timestamps, distances and float arithmetic with exact
rationals (`ℚ`), Python dicts (which preserve key insertion order) with
insertion-ordered association lists, and fallible operations (list `pop` on an
empty list, the assignment solver's `ValueError`) with `Except String`.
The random `uuid.uuid4()` track-id generator is abstracted as an external stream
`gen : ℕ → String` consumed at successive track-creation indices.
-/

namespace SmartSpace

/-- Parsed detection record built by `associate_detections` (lines 224–230 of
`tracking_service.py`); timestamps are seconds as exact rationals. -/
structure PDet where
  det_id : Option String
  ts : ℚ
  cls : String
  node_id : Int
  score : ℚ
deriving DecidableEq, Repr

/-- Dynamic value found under the `ts` key of a raw detection dict.  A string
carries the result `datetime.fromisoformat` would produce on it (`none` when
parsing raises); `dt` is an already-parsed datetime; `noneVal` a missing key or
`None`; `other` any other runtime type. -/
inductive PyTs where
  | str (parsed : Option ℚ)
  | dt (t : ℚ)
  | noneVal
  | other
deriving DecidableEq, Repr

/-- Raw detection dict as received by `associate_detections`; a missing key is
`none`. -/
structure RawDet where
  det_id : Option String
  ts : PyTs
  cls : Option String
  node_id : Option Int
  score : Option ℚ
deriving DecidableEq, Repr

/-- Banker's rounding of a rational to an integer, the behaviour of Python's
built-in `round`. -/
def pyRoundInt (x : ℚ) : ℤ :=
  let f := ⌊x⌋
  let r := x - f
  if r < 1/2 then f
  else if 1/2 < r then f + 1
  else if f % 2 = 0 then f else f + 1

/-- Python `round(x, 3)` on exact rationals. -/
def pyRound3 (x : ℚ) : ℚ := (pyRoundInt (x * 1000) : ℚ) / 1000

/-- Outcome of the per-detection validation step: parsed, skipped silently
(line 222 `continue`), or skipped with a printed warning (lines 232–234). -/
inductive ParseResult where
  | ok (d : PDet)
  | skippedSilently
  | skippedWithWarning
deriving DecidableEq, Repr

/-- Per-detection parsing step of `associate_detections` (lines 213–234): a
string timestamp is parsed (a parse failure raises, is caught, and the
detection is skipped with a warning); a datetime is used as is; any other
timestamp value is skipped silently; the remaining fields are read with
`dict.get` defaults `class='equipment'`, `node_id=1`, `score=0.8`, and a
missing `det_id` is kept as `None`. -/
def parseDetection (r : RawDet) : ParseResult :=
  match r.ts with
  | .str none => .skippedWithWarning
  | .str (some t) =>
      .ok { det_id := r.det_id, ts := t, cls := r.cls.getD "equipment",
            node_id := r.node_id.getD 1, score := r.score.getD (4/5) }
  | .dt t =>
      .ok { det_id := r.det_id, ts := t, cls := r.cls.getD "equipment",
            node_id := r.node_id.getD 1, score := r.score.getD (4/5) }
  | .noneVal => .skippedSilently
  | .other => .skippedSilently

/-- The surviving parsed detections, in input order (lines 212–234). -/
def parseDetections (dets : List RawDet) : List PDet :=
  dets.filterMap fun d => match parseDetection d with | .ok p => some p | _ => none

/-- Insert a detection into a ts-ascending list, before the first strictly
later element, so that the fold below is a stable ascending sort. -/
def insertByTs (d : PDet) : List PDet → List PDet
  | [] => [d]
  | e :: es => if d.ts ≤ e.ts then d :: e :: es else e :: insertByTs d es

/-- Stable ascending sort by timestamp, modelling
`sorted(parsed_detections, key=lambda d: d['ts'])` (line 248). -/
def sortByTs (l : List PDet) : List PDet := l.foldr insertByTs []

/-- Window-building loop of `associate_detections` (lines 250–265): a detection
more than 5 seconds after the current window's opening timestamp closes the
current window and opens a new one; otherwise it joins the current window. -/
def windowLoop : List PDet → List PDet → ℚ → List (List PDet) → List (List PDet) × List PDet
  | [], cw, _, ws => (ws, cw)
  | d :: rest, cw, ct, ws =>
      if d.ts - ct > 5 then
        windowLoop rest [d] d.ts (if cw.isEmpty then ws else ws ++ [cw])
      else
        windowLoop rest (cw ++ [d]) ct ws

/-- The 5-second time windows built from the (sorted) detection list
(lines 250–265): the loop starts from the first detection's timestamp and the
last nonempty window is flushed at the end. -/
def makeWindows : List PDet → List (List PDet)
  | [] => []
  | d0 :: rest =>
      let p := windowLoop (d0 :: rest) [] d0.ts []
      if p.2.isEmpty then p.1 else p.1 ++ [p.2]

/-- The `speed_config` section of the topology configuration, with the
`config.get` defaults of lines 112–115 already resolved. -/
structure SpeedConfig where
  normal_mps : ℚ
  urgent_mps : ℚ
  time_pad_s : ℚ
deriving DecidableEq, Repr

/-- The `association` section of the configuration, defaults of
lines 157–159 resolved. -/
structure AssocConfig where
  dist_weight : ℚ
  time_weight : ℚ
deriving DecidableEq, Repr

/-- State of a loaded `TrackingService`: the node list (id, name pairs) and the
all-pairs shortest-path table `self.shortest_paths` precomputed by
`_compute_shortest_paths` (lines 64–75), `none` when the target is unreachable
or the source unknown, together with the resolved configuration. -/
structure TrackingService where
  nodes : List (Int × String)
  shortest_paths : Int → Int → Option ℚ
  speed : SpeedConfig
  assoc : AssocConfig

/-- Shortest-path distance lookup `get_distance` (lines 77–81). -/
def get_distance (svc : TrackingService) (a b : Int) : Option ℚ :=
  svc.shortest_paths a b

/-- Node-name lookup `get_node_name` (lines 83–88), with the synthetic
fallback label. -/
def get_node_name (svc : TrackingService) (i : Int) : String :=
  match svc.nodes.find? fun p => p.1 == i with
  | some p => p.2
  | none => "Node " ++ toString i

/-- Feasibility-gated cost matrix `build_cost_matrix` (lines 97–164); a cell is
`none` exactly where the source leaves `np.inf`. -/
def build_cost_matrix (svc : TrackingService) (exits entries : List PDet) :
    List (List (Option ℚ)) :=
  exits.map fun e => entries.map fun en =>
    if e.node_id = en.node_id then none
    else
      match get_distance svc e.node_id en.node_id with
      | none => none
      | some dist =>
          let actual := en.ts - e.ts
          if actual < 0 then none
          else
            let expected := dist / svc.speed.normal_mps
            let tl := expected * (3/10)
            let tu := expected * 3 + svc.speed.time_pad_s
            if actual < tl ∨ tu < actual then none
            else
              let dist_dev := if 0 < dist then |dist - 20| / 30 else 0
              let time_dev := |actual - expected| / max expected 1
              some (svc.assoc.dist_weight * dist_dev + svc.assoc.time_weight * time_dev)

/-- Matrix cell access `C[r, c]`; out-of-range reads yield `none`. -/
def cellAt (C : List (List (Option ℚ))) (r c : ℕ) : Option ℚ :=
  match C[r]? with
  | some row => (row[c]?).getD none
  | none => none

/-- Per-link confidence `compute_link_confidence` (lines 167–177); the two
detection arguments are unused in the source as well. -/
def compute_link_confidence (_exitDet _entryDet : PDet) (cost : ℚ) : ℚ :=
  pyRound3 (max 0 (1 - cost))

/-- Information content of `generate_reasons` (lines 179–199).  The source
renders these values into three human-readable strings; the embedding keeps
the underlying values since the float string formatting carries no further
logic. -/
structure LinkReasons where
  movement_from : String
  movement_to : String
  distance : Option ℚ
  expected_s : ℚ
  actual_s : ℚ
  cost : ℚ
deriving DecidableEq, Repr

/-- Reason record for a link, `generate_reasons` (lines 179–199); note the
hard-coded `1.3` speed and the falsy test `if dist` of line 191. -/
def generate_reasons (svc : TrackingService) (e en : PDet) (cost : ℚ) : LinkReasons :=
  let dist := get_distance svc e.node_id en.node_id
  { movement_from := get_node_name svc e.node_id
    movement_to := get_node_name svc en.node_id
    distance := dist
    expected_s := match dist with
      | some d => if d ≠ 0 then d / (13/10) else 0
      | none => 0
    actual_s := en.ts - e.ts
    cost := cost }

/-- Link record appended to a track (lines 342–351); `t_exit`/`t_entry` hold
the timestamp values that the source stores in ISO format. -/
structure Link where
  from_node_id : Int
  to_node_id : Int
  from_node_name : String
  to_node_name : String
  t_exit : ℚ
  t_entry : ℚ
  confidence : ℚ
  reasons : LinkReasons
deriving DecidableEq, Repr

/-- Track record (lines 334–340); `status` is the source's string enum. -/
structure Track where
  track_id : String
  cls : String
  links : List Link
  confidence : ℚ
  status : String
deriving DecidableEq, Repr

/-- Largest `k ≤ fuel` with `k^n ≤ 1000^n * p`, i.e. `⌊1000 * p^(1/n)⌋` for
`0 ≤ p ≤ 1` and `fuel = 1001`. -/
def rootFloorAux (p : ℚ) (n : ℕ) : ℕ → ℕ
  | 0 => 0
  | k + 1 =>
      if ((k + 1 : ℕ) : ℚ) ^ n ≤ p * 1000 ^ n then k + 1 else rootFloorAux p n k

/-- Exact value of Python `round(prod(cs) ** (1 / len(cs)), 3)` for a list of
confidences in `[0, 1]`: the geometric mean of `_finalize_track` (lines
379–383), rounded half-to-even at 3 decimals, computed without leaving ℚ by
comparing n-th powers. -/
def geomMeanRound3 (cs : List ℚ) : ℚ :=
  let p := cs.prod
  let n := cs.length
  let f := rootFloorAux p n 1001
  if p * 2000 ^ n < ((2 * f + 1 : ℕ) : ℚ) ^ n then (f : ℚ) / 1000
  else if ((2 * f + 1 : ℕ) : ℚ) ^ n < p * 2000 ^ n then ((f : ℚ) + 1) / 1000
  else if f % 2 = 0 then (f : ℚ) / 1000 else ((f : ℚ) + 1) / 1000

/-- Embeds `_finalize_track` (lines 376–388): the confidence becomes the
rounded geometric mean of the link confidences (0 for a linkless track) and a
confidence below 0.5 demotes the status to `needs_review`. -/
def finalize_track (t : Track) : Track :=
  let conf := if t.links.isEmpty then 0 else geomMeanRound3 (t.links.map (·.confidence))
  let st := if conf < 1/2 then "needs_review" else t.status
  { t with confidence := conf, status := st }

/-- All ways to pick an ordered sequence of `k` distinct elements of `cands`. -/
def injections : ℕ → List ℕ → List (List ℕ)
  | 0, _ => [[]]
  | k + 1, cands =>
      cands.flatMap fun c => (injections k (cands.erase c)).map fun rest => c :: rest

/-- All complete one-to-one matchings of `min m n` rows and columns of an
`m × n` matrix, each listed in ascending row order. -/
def candidateMatchings (m n : ℕ) : List (List (ℕ × ℕ)) :=
  if m ≤ n then
    (injections m (List.range n)).map fun σ => (List.range m).zip σ
  else
    (injections n (List.range m)).map fun σ =>
      (List.range m).filterMap fun r => (σ.findIdx? (· == r)).map fun j => (r, j)

/-- Total cost of a matching; `none` when it uses an infeasible cell. -/
def matchingCost (C : List (List (Option ℚ))) : List (ℕ × ℕ) → Option ℚ
  | [] => some 0
  | (r, c) :: rest =>
      match cellAt C r c, matchingCost C rest with
      | some v, some s => some (v + s)
      | _, _ => none

/-- Modelled from the library call `scipy.optimize.linear_sum_assignment`
(line 310), the one external numeric primitive: it returns a minimum-cost
complete matching of `min m n` pairs in ascending row order, and raises
`ValueError("cost matrix is infeasible")` when every complete matching uses an
infinite (here `none`) cell.  Ties are broken deterministically by enumeration
order. -/
def linear_sum_assignment (C : List (List (Option ℚ))) :
    Except String (List (ℕ × ℕ)) :=
  let m := C.length
  let n := (C.headD []).length
  let best := (candidateMatchings m n).foldl
    (fun acc p =>
      match matchingCost C p with
      | none => acc
      | some t =>
          match acc with
          | none => some (p, t)
          | some b => if t < b.2 then some (p, t) else acc)
    none
  match best with
  | none => .error "cost matrix is infeasible"
  | some b => .ok b.1

/-- Lookup in an insertion-ordered dict (`k in d` iff the result is `some`). -/
def dictFind? {α : Type} (d : List (Int × α)) (k : Int) : Option α :=
  (d.find? fun p => p.1 == k).map (·.2)

/-- Update the value at an existing key, preserving key order. -/
def dictSet {α : Type} (d : List (Int × α)) (k : Int) (v : α) : List (Int × α) :=
  d.map fun p => if p.1 == k then (p.1, v) else p

/-- Lines 354–356: create the key with an empty list when absent, then append
the track to the list at the key. -/
def dictAppend (d : List (Int × List Track)) (k : Int) (t : Track) :
    List (Int × List Track) :=
  match dictFind? d k with
  | some l => dictSet d k (l ++ [t])
  | none => d ++ [(k, [t])]

/-- Exit extraction step (lines 277–284): keep, per node, the detection with
the strictly latest timestamp, first occurrence fixing the key position. -/
def upsertExit (d : List (Int × PDet)) (det : PDet) : List (Int × PDet) :=
  match dictFind? d det.node_id with
  | none => d ++ [(det.node_id, det)]
  | some e => if e.ts < det.ts then dictSet d det.node_id det else d

/-- Entry extraction step (lines 289–297): keep, per node, the detection with
the strictly earliest timestamp. -/
def upsertEntry (d : List (Int × PDet)) (det : PDet) : List (Int × PDet) :=
  match dictFind? d det.node_id with
  | none => d ++ [(det.node_id, det)]
  | some e => if det.ts < e.ts then dictSet d det.node_id det else d

/-- One exit per node of the previous window, in node first-seen order
(line 286). -/
def extractExits (w : List PDet) : List PDet := (w.foldl upsertExit []).map (·.2)

/-- One entry per node of the current window, in node first-seen order
(line 299). -/
def extractEntries (w : List PDet) : List PDet := (w.foldl upsertEntry []).map (·.2)

/-- Mutable state of the association loop: the finalized `tracks` list, the
`open_tracks` dict from node id to the stack of open tracks waiting there, and
the number of track ids drawn so far from the generator stream. -/
structure AssocState where
  tracks : List Track
  open_tracks : List (Int × List Track)
  counter : ℕ
deriving Repr

/-- Fresh track creation (lines 334–340); the id is drawn from the external
uuid stream at the current index. -/
def freshTrack (gen : ℕ → String) (cnt : ℕ) (cls : String) : Track :=
  { track_id := gen cnt, cls := cls, links := [], confidence := 0, status := "active" }

/-- Match-processing loop over the solver's `(row, col)` pairs
(lines 312–359): an infinite selected cell is skipped; otherwise the exit
node's open-track stack is popped (Python `list.pop`, the last element) or a
fresh track is created, the new link is appended, and the track is pushed onto
the entry node's stack.  The two accumulators are `matched_exits` and
`matched_entries`. -/
def processMatches (svc : TrackingService) (gen : ℕ → String)
    (exits entries : List PDet) (C : List (List (Option ℚ))) :
    List (ℕ × ℕ) → AssocState → List ℕ → List ℕ →
    Except String (AssocState × List ℕ × List ℕ)
  | [], st, me, mn => .ok (st, me, mn)
  | (r, c) :: rest, st, me, mn =>
      match cellAt C r c with
      | none => processMatches svc gen exits entries C rest st me mn
      | some cost =>
          match exits[r]?, entries[c]? with
          | some e, some en =>
              let link_conf := compute_link_confidence e en cost
              let reasons := generate_reasons svc e en cost
              let from_node := e.node_id
              let to_node := en.node_id
              let stack := (dictFind? st.open_tracks from_node).getD []
              let tpl : Track × List (Int × List Track) × ℕ :=
                match stack.getLast? with
                | some t => (t, dictSet st.open_tracks from_node stack.dropLast, st.counter)
                | none => (freshTrack gen st.counter e.cls, st.open_tracks, st.counter + 1)
              let link : Link :=
                { from_node_id := from_node, to_node_id := to_node,
                  from_node_name := get_node_name svc from_node,
                  to_node_name := get_node_name svc to_node,
                  t_exit := e.ts, t_entry := en.ts,
                  confidence := link_conf, reasons := reasons }
              let track := { tpl.1 with links := tpl.1.links ++ [link] }
              let opens := dictAppend tpl.2.1 to_node track
              processMatches svc gen exits entries C rest
                { tracks := st.tracks, open_tracks := opens, counter := tpl.2.2 }
                (me ++ [r]) (mn ++ [c])
          | _, _ => .error "IndexError"

/-- Unmatched-exit finalization loop (lines 361–366).  The source checks only
key presence (`node_id in open_tracks`), not stack non-emptiness, before
`pop()`: popping an empty stack is Python's `IndexError`. -/
def finalizeUnmatched (matched : List ℕ) :
    List PDet → ℕ → AssocState → Except String AssocState
  | [], _, st => .ok st
  | e :: rest, i, st =>
      if i ∈ matched then finalizeUnmatched matched rest (i + 1) st
      else
        match dictFind? st.open_tracks e.node_id with
        | none => finalizeUnmatched matched rest (i + 1) st
        | some stack =>
            match stack.getLast? with
            | none => .error "IndexError: pop from empty list"
            | some t =>
                finalizeUnmatched matched rest (i + 1)
                  { tracks := st.tracks ++ [finalize_track t],
                    open_tracks := dictSet st.open_tracks e.node_id stack.dropLast,
                    counter := st.counter }

/-- One window transition (lines 271–366): extract exits and entries, skip
when either side is empty or the whole matrix is infinite, solve the
assignment, process the matches and finalize the unmatched exits. -/
def processTransition (svc : TrackingService) (gen : ℕ → String)
    (st : AssocState) (prev curr : List PDet) : Except String AssocState :=
  let exits := extractExits prev
  let entries := extractEntries curr
  if exits.isEmpty || entries.isEmpty then .ok st
  else
    let C := build_cost_matrix svc exits entries
    if C.all fun row => row.all (·.isNone) then .ok st
    else
      match linear_sum_assignment C with
      | .error msg => .error msg
      | .ok pairs =>
          match processMatches svc gen exits entries C pairs st [] [] with
          | .error msg => .error msg
          | .ok (st', me, _) => finalizeUnmatched me exits 0 st'

/-- Loop over adjacent window pairs (line 271). -/
def assocLoop (svc : TrackingService) (gen : ℕ → String) :
    List (List PDet) → AssocState → Except String AssocState
  | w1 :: w2 :: rest, st =>
      match processTransition svc gen st w1 w2 with
      | .error msg => .error msg
      | .ok st' => assocLoop svc gen (w2 :: rest) st'
  | _, st => .ok st

/-- Full `associate_detections` (lines 201–374): parse and validate, sort,
window, run the transition loop, then finalize every remaining open track in
dict value order. -/
def associate_detections (svc : TrackingService) (gen : ℕ → String)
    (detections : List RawDet) : Except String (List Track) :=
  if detections.isEmpty then .ok []
  else
    let parsed := parseDetections detections
    if parsed.isEmpty then .ok []
    else
      let sorted := sortByTs parsed
      let windows := makeWindows sorted
      match assocLoop svc gen windows { tracks := [], open_tracks := [], counter := 0 } with
      | .error msg => .error msg
      | .ok st => .ok (st.open_tracks.foldl (fun acc p => acc ++ p.2.map finalize_track) st.tracks)

/-! Predicates used by the claims. -/

/-- Chronological order on parsed detections. -/
def tsLE (a b : PDet) : Prop := a.ts ≤ b.ts

/-- Two consecutive detections are at most 5 seconds apart. -/
def gapLE (a b : PDet) : Prop := b.ts - a.ts ≤ 5

instance : DecidableRel tsLE := fun a b => inferInstanceAs (Decidable (a.ts ≤ b.ts))

instance : DecidableRel gapLE := fun a b => inferInstanceAs (Decidable (b.ts - a.ts ≤ 5))

/-- Spatial chaining of two adjacent links of a track. -/
def linkChained (a b : Link) : Prop := a.to_node_id = b.from_node_id

instance : DecidableRel linkChained := fun a b =>
  inferInstanceAs (Decidable (a.to_node_id = b.from_node_id))

/-- Every link of the track respects causality. -/
def causalLinks (t : Track) : Prop := ∀ L ∈ t.links, L.t_exit ≤ L.t_entry

instance (t : Track) : Decidable (causalLinks t) :=
  inferInstanceAs (Decidable (∀ L ∈ t.links, L.t_exit ≤ L.t_entry))

/-- The links of the track form a spatial chain. -/
def spatialChain (t : Track) : Prop := List.Chain' linkChained t.links

instance (t : Track) : Decidable (spatialChain t) :=
  inferInstanceAs (Decidable (List.Chain' linkChained t.links))

/-- Destination node of a track's last link. -/
def lastTo (t : Track) : Option Int := t.links.getLast?.map (·.to_node_id)

/-- Invariant carried by every track the association loop ever builds. -/
def goodTrack (t : Track) : Prop := t.links ≠ [] ∧ spatialChain t ∧ causalLinks t

/-- Invariant of the open-track dict: every waiting track is good and its last
link ends at the node it waits at. -/
def goodOpens (d : List (Int × List Track)) : Prop :=
  ∀ p ∈ d, ∀ t ∈ p.2, goodTrack t ∧ lastTo t = some p.1

/-- Invariant of the whole association state. -/
def goodState (st : AssocState) : Prop :=
  (∀ t ∈ st.tracks, goodTrack t) ∧ goodOpens st.open_tracks

/-- Rename a track's id, leaving every other field unchanged. -/
def mapTrackId (f : String → String) (t : Track) : Track :=
  { t with track_id := f t.track_id }

/-- Blank out a track's id (used to compare two runs up to uuid draws). -/
def eraseTrackId : Track → Track := mapTrackId fun _ => ""

/-- Rename every id inside an open-track dict. -/
def mapOpens (f : String → String) (d : List (Int × List Track)) :
    List (Int × List Track) :=
  d.map fun p => (p.1, p.2.map (mapTrackId f))

/-- Rename every id inside an association state. -/
def mapState (f : String → String) (st : AssocState) : AssocState :=
  { tracks := st.tracks.map (mapTrackId f),
    open_tracks := mapOpens f st.open_tracks,
    counter := st.counter }

/-! Concrete scenarios used by the claims. -/

/-- Deterministic stand-in for the uuid stream of a concrete run. -/
def genT : ℕ → String := fun k => "t" ++ toString k

/-- Well-formed raw detection at time `t` (seconds) and node `n`. -/
def rawDet (t : ℚ) (n : Int) : RawDet :=
  { det_id := some "d", ts := .dt t, cls := some "equipment",
    node_id := some n, score := some (4/5) }

/-- Symmetric shortest-path table built from an undirected distance list, the
shape `_compute_shortest_paths` produces: distance 0 to itself for a known
node, `none` across components. -/
def distOf (tbl : List (Int × Int × ℚ)) : Int → Int → Option ℚ := fun a b =>
  if a = b then (if tbl.any fun e => e.1 = a ∨ e.2.1 = a then some 0 else none)
  else (tbl.find? fun e => (e.1 = a ∧ e.2.1 = b) ∨ (e.1 = b ∧ e.2.1 = a)).map (·.2.2)

/-- Default speed configuration (`normal_mps=1.3`, `urgent_mps=2.2`,
`time_pad_s=8`). -/
def defaultSpeed : SpeedConfig := { normal_mps := 13/10, urgent_mps := 11/5, time_pad_s := 8 }

/-- Default association weights (`dist_weight=0.4`, `time_weight=0.4`). -/
def defaultAssoc : AssocConfig := { dist_weight := 2/5, time_weight := 2/5 }

/-- Two-node topology of the spec's §8 scenario: A and B, 20 m apart. -/
def svcAB : TrackingService :=
  { nodes := [(1, "A"), (2, "B")],
    shortest_paths := distOf [(1, 2, 20)],
    speed := defaultSpeed,
    assoc := defaultAssoc }

/-- The §8 scenario batch: an exit at A at t = 0 s, an entry at B at t = 16 s. -/
def detsAB : List RawDet := [rawDet 0 1, rawDet 16 2]

/-- Parsed exit detection of the §8 scenario. -/
def exitA : PDet := { det_id := some "d", ts := 0, cls := "equipment", node_id := 1, score := 4/5 }

/-- Parsed entry detection of the §8 scenario. -/
def entryB : PDet := { det_id := some "d", ts := 16, cls := "equipment", node_id := 2, score := 4/5 }

/-- The single track the §8 scenario produces. -/
def trackAB : Track :=
  { track_id := "t0", cls := "equipment",
    links := [{ from_node_id := 1, to_node_id := 2,
                from_node_name := "A", to_node_name := "B",
                t_exit := 0, t_entry := 16, confidence := 123/125,
                reasons := { movement_from := "A", movement_to := "B",
                             distance := some 20, expected_s := 200/13,
                             actual_s := 16, cost := 2/125 } }],
    confidence := 123/125, status := "active" }

/-- Topology with two components, `{1,2}` and the path `3–4–5–6`, each edge
20 m: the all-pairs table Dijkstra computes for it. -/
def svcTwoComp : TrackingService :=
  { nodes := [(1, "N1"), (2, "N2"), (3, "N3"), (4, "N4"), (5, "N5"), (6, "N6")],
    shortest_paths := distOf
      [(1, 2, 20), (3, 4, 20), (3, 5, 40), (3, 6, 60), (4, 5, 20), (4, 6, 40), (5, 6, 20)],
    speed := defaultSpeed,
    assoc := defaultAssoc }

/-- Batch whose fourth window transition pops the already-emptied open-track
stack of node 2: windows `[1]@0, [2,3]@16, [4]@32, [2,5]@48, [6]@64`. -/
def detsPopTwice : List RawDet :=
  [rawDet 0 1, rawDet 16 2, rawDet 16 3, rawDet 32 4, rawDet 48 2, rawDet 48 5, rawDet 64 6]

/-- Path topology `1–2–3`, each edge 20 m. -/
def svcPath3 : TrackingService :=
  { nodes := [(1, "N1"), (2, "N2"), (3, "N3")],
    shortest_paths := distOf [(1, 2, 20), (2, 3, 20), (1, 3, 40)],
    speed := defaultSpeed,
    assoc := defaultAssoc }

/-- Batch whose single window transition matches both `1→2` and `2→3`,
chaining two links through node 2 within one transition. -/
def detsChain : List RawDet := [rawDet 0 1, rawDet 0 2, rawDet 16 2, rawDet 16 3]

/-- The two-link track `detsChain` produces. -/
def trackChain : Track :=
  { track_id := "t0", cls := "equipment",
    links := [{ from_node_id := 1, to_node_id := 2,
                from_node_name := "N1", to_node_name := "N2",
                t_exit := 0, t_entry := 16, confidence := 123/125,
                reasons := { movement_from := "N1", movement_to := "N2",
                             distance := some 20, expected_s := 200/13,
                             actual_s := 16, cost := 2/125 } },
              { from_node_id := 2, to_node_id := 3,
                from_node_name := "N2", to_node_name := "N3",
                t_exit := 0, t_entry := 16, confidence := 123/125,
                reasons := { movement_from := "N2", movement_to := "N3",
                             distance := some 20, expected_s := 200/13,
                             actual_s := 16, cost := 2/125 } }],
    confidence := 123/125, status := "active" }

/-- Topology with an edge `1–2` (20 m) and two isolated nodes 7 and 8. -/
def svcIsolated : TrackingService :=
  { nodes := [(1, "N1"), (2, "N2"), (7, "N7"), (8, "N8")],
    shortest_paths := distOf [(1, 2, 20)],
    speed := defaultSpeed,
    assoc := defaultAssoc }

/-- Batch whose only transition has a mixed cost matrix (cell `1→2` finite,
all other cells infinite) admitting no complete feasible assignment. -/
def detsMixedInf : List RawDet := [rawDet 0 1, rawDet 0 7, rawDet 16 2, rawDet 16 8]

/-- Exit detections the mixed-matrix scenario extracts from its first window. -/
def exitsMixed : List PDet :=
  [⟨some "d", 0, "equipment", 1, 4/5⟩, ⟨some "d", 0, "equipment", 7, 4/5⟩]

/-- Entry detections the mixed-matrix scenario extracts from its second window. -/
def entriesMixed : List PDet :=
  [⟨some "d", 16, "equipment", 2, 4/5⟩, ⟨some "d", 16, "equipment", 8, 4/5⟩]

/-- Raw detection with a valid timestamp but no `node_id` key. -/
def rawMissingNode : RawDet :=
  { det_id := some "d-1", ts := .dt 0, cls := some "equipment",
    node_id := none, score := some (9/10) }

/-- Parsed detections of the spec's §8 windowing scenario, t = 0, 2, 4, 20, 22. -/
def detsWindowing : List PDet :=
  [{ det_id := some "a", ts := 0, cls := "equipment", node_id := 1, score := 4/5 },
   { det_id := some "b", ts := 2, cls := "equipment", node_id := 2, score := 4/5 },
   { det_id := some "c", ts := 4, cls := "equipment", node_id := 1, score := 4/5 },
   { det_id := some "d", ts := 20, cls := "equipment", node_id := 2, score := 4/5 },
   { det_id := some "e", ts := 22, cls := "equipment", node_id := 1, score := 4/5 }]

/-! Windowing lemmas (claim C1). -/

theorem windowLoop_flatten (rest : List PDet) :
    ∀ cw ct ws,
      (windowLoop rest cw ct ws).1.flatten ++ (windowLoop rest cw ct ws).2 =
        ws.flatten ++ (cw ++ rest) := by
  induction rest with
  | nil => intro cw ct ws; simp [windowLoop]
  | cons d rest ih =>
      intro cw ct ws
      by_cases h : d.ts - ct > 5
      · rw [windowLoop, if_pos h, ih]
        by_cases hcw : cw.isEmpty
        · rw [List.isEmpty_iff] at hcw
          simp [hcw]
        · simp [hcw]
      · rw [windowLoop, if_neg h, ih]
        simp

theorem makeWindows_flatten (l : List PDet) : (makeWindows l).flatten = l := by
  cases l with
  | nil => rfl
  | cons d rest =>
      have h := windowLoop_flatten (d :: rest) [] d.ts []
      rw [makeWindows]
      by_cases hp : (windowLoop (d :: rest) [] d.ts []).2.isEmpty
      · rw [List.isEmpty_iff] at hp
        rw [hp, List.append_nil] at h
        simpa [hp] using h
      · simpa [hp] using h

theorem windowLoop_chain (rest : List PDet) :
    ∀ cw ct ws,
      List.Pairwise tsLE rest →
      (∀ x ∈ rest, ct ≤ x.ts) →
      (∀ x ∈ cw, ct ≤ x.ts) →
      List.Chain' gapLE cw →
      (∀ w ∈ ws, List.Chain' gapLE w ∧ w ≠ []) →
      (∀ w ∈ (windowLoop rest cw ct ws).1, List.Chain' gapLE w ∧ w ≠ []) ∧
        List.Chain' gapLE (windowLoop rest cw ct ws).2 := by
  induction rest with
  | nil =>
      intro cw ct ws _ _ _ hcw hws
      exact ⟨hws, hcw⟩
  | cons d rest ih =>
      intro cw ct ws hpw hct hcwts hcw hws
      rw [List.pairwise_cons] at hpw
      by_cases h : d.ts - ct > 5
      · rw [windowLoop, if_pos h]
        refine ih [d] d.ts _ hpw.2 hpw.1 ?_ (List.chain'_singleton d) ?_
        · intro x hx
          rw [List.mem_singleton] at hx
          exact hx ▸ le_refl _
        · intro w hw
          by_cases hcwe : cw.isEmpty
          · rw [if_pos hcwe] at hw
            exact hws w hw
          · rw [if_neg hcwe] at hw
            rcases List.mem_append.1 hw with hw | hw
            · exact hws w hw
            · rw [List.mem_singleton] at hw
              subst hw
              exact ⟨hcw, fun hnil => hcwe (by rw [hnil]; rfl)⟩
      · rw [windowLoop, if_neg h]
        push_neg at h
        refine ih (cw ++ [d]) ct ws hpw.2 (fun x hx => hct x (List.mem_cons_of_mem d hx)) ?_ ?_ hws
        · intro x hx
          rcases List.mem_append.1 hx with hx | hx
          · exact hcwts x hx
          · rw [List.mem_singleton] at hx
            exact hx ▸ hct d (List.mem_cons_self d rest)
        · rw [List.chain'_append]
          refine ⟨hcw, List.chain'_singleton d, ?_⟩
          intro x hx y hy
          have hxm : x ∈ cw := List.mem_of_mem_getLast? hx
          rw [List.head?_cons, Option.mem_some_iff] at hy
          subst hy
          have : ct ≤ x.ts := hcwts x hxm
          calc d.ts - x.ts ≤ d.ts - ct := by linarith
            _ ≤ 5 := h

theorem makeWindows_chain (l : List PDet) (h : List.Pairwise tsLE l) :
    ∀ w ∈ makeWindows l, List.Chain' gapLE w ∧ w ≠ [] := by
  cases l with
  | nil => intro w hw; exact absurd hw (by simp [makeWindows])
  | cons d rest =>
      have hct : ∀ x ∈ d :: rest, d.ts ≤ x.ts := by
        intro x hx
        rcases List.mem_cons.1 hx with hx | hx
        · exact hx ▸ le_refl _
        · exact (List.pairwise_cons.1 h).1 x hx
      have hmain := windowLoop_chain (d :: rest) [] d.ts [] h hct
        (by intro x hx; exact absurd hx (List.not_mem_nil x))
        List.chain'_nil (by intro w hw; exact absurd hw (List.not_mem_nil w))
      intro w hw
      rw [makeWindows] at hw
      by_cases hp : (windowLoop (d :: rest) [] d.ts []).2.isEmpty
      · rw [if_pos hp] at hw
        exact hmain.1 w hw
      · rw [if_neg hp] at hw
        rcases List.mem_append.1 hw with hw | hw
        · exact hmain.1 w hw
        · rw [List.mem_singleton] at hw
          subst hw
          exact ⟨hmain.2, fun hnil => hp (by rw [hnil]; rfl)⟩

/-! Cost-matrix cell characterization (claims C2 and C6). -/

theorem cellAt_build_iff (svc : TrackingService) (exits entries : List PDet)
    (i j : ℕ) (e en : PDet) (he : exits[i]? = some e) (hen : entries[j]? = some en)
    (v : ℚ) :
    cellAt (build_cost_matrix svc exits entries) i j = some v ↔
      e.node_id ≠ en.node_id ∧
        ∃ dist, get_distance svc e.node_id en.node_id = some dist ∧
          0 ≤ en.ts - e.ts ∧
          dist / svc.speed.normal_mps * (3/10) ≤ en.ts - e.ts ∧
          en.ts - e.ts ≤ dist / svc.speed.normal_mps * 3 + svc.speed.time_pad_s ∧
          v = svc.assoc.dist_weight * (if 0 < dist then |dist - 20| / 30 else 0) +
              svc.assoc.time_weight *
                (|(en.ts - e.ts) - dist / svc.speed.normal_mps| /
                  max (dist / svc.speed.normal_mps) 1) := by
  unfold cellAt build_cost_matrix
  simp only [List.getElem?_map, he, hen, Option.map_some', Option.getD_some]
  by_cases hne : e.node_id = en.node_id
  · simp [hne]
  · rw [if_neg hne]
    cases hd : get_distance svc e.node_id en.node_id with
    | none => simp [hne, hd]
    | some dist =>
        simp only [hne, hd, ne_eq, not_false_eq_true, true_and]
        by_cases hneg : en.ts - e.ts < 0
        · rw [if_pos hneg]
          constructor
          · intro hc; exact absurd hc (by simp)
          · rintro ⟨d', hd', hpos, -⟩
            rw [Option.some_inj] at hd'
            subst hd'
            exact absurd hpos (by linarith)
        · rw [if_neg hneg]
          push_neg at hneg
          by_cases hband : en.ts - e.ts < dist / svc.speed.normal_mps * (3/10) ∨
              dist / svc.speed.normal_mps * 3 + svc.speed.time_pad_s < en.ts - e.ts
          · rw [if_pos hband]
            constructor
            · intro hc; exact absurd hc (by simp)
            · rintro ⟨d', hd', -, hlo, hhi, -⟩
              rw [Option.some_inj] at hd'
              subst hd'
              rcases hband with hband | hband
              · exact absurd hlo (by linarith)
              · exact absurd hhi (by linarith)
          · rw [if_neg hband]
            push_neg at hband
            constructor
            · intro hc
              rw [Option.some_inj] at hc
              exact ⟨dist, rfl, hneg, hband.1, hband.2, hc.symm⟩
            · rintro ⟨d', hd', -, -, -, hv⟩
              rw [Option.some_inj] at hd'
              subst hd'
              rw [hv]

theorem cellAt_build_causal (svc : TrackingService) (exits entries : List PDet)
    (i j : ℕ) (e en : PDet) (he : exits[i]? = some e) (hen : entries[j]? = some en)
    (v : ℚ) (hc : cellAt (build_cost_matrix svc exits entries) i j = some v) :
    e.ts ≤ en.ts := by
  rcases (cellAt_build_iff svc exits entries i j e en he hen v).1 hc with ⟨-, d, -, hpos, -⟩
  linarith

/-! State invariant of the association loop (claims C6, C8, C10). -/

theorem finalize_track_links (t : Track) : (finalize_track t).links = t.links := rfl

theorem goodTrack_finalize {t : Track} (h : goodTrack t) : goodTrack (finalize_track t) := by
  obtain ⟨h1, h2, h3⟩ := h
  refine ⟨?_, ?_, ?_⟩
  · rw [finalize_track_links]; exact h1
  · unfold spatialChain at h2 ⊢; rw [finalize_track_links]; exact h2
  · unfold causalLinks at h3 ⊢; rw [finalize_track_links]; exact h3

theorem dictFind?_goodOpens {d : List (Int × List Track)} {k : Int} {l : List Track}
    (hg : goodOpens d) (hf : dictFind? d k = some l) :
    ∀ t ∈ l, goodTrack t ∧ lastTo t = some k := by
  unfold dictFind? at hf
  cases hq : d.find? fun p => p.1 == k with
  | none => rw [hq] at hf; exact absurd hf (by simp)
  | some q =>
      rw [hq, Option.map_some', Option.some_inj] at hf
      have hqk : q.1 = k := by
        have := List.find?_some hq
        exact beq_iff_eq.1 this
      have hqd : q ∈ d := List.mem_of_find?_eq_some hq
      intro t ht
      have := hg q hqd t (hf ▸ ht)
      exact ⟨this.1, hqk ▸ this.2⟩

theorem goodOpens_dictSet {d : List (Int × List Track)} {k : Int} {l : List Track}
    (hg : goodOpens d) (hl : ∀ t ∈ l, goodTrack t ∧ lastTo t = some k) :
    goodOpens (dictSet d k l) := by
  intro p hp t ht
  unfold dictSet at hp
  rcases List.mem_map.1 hp with ⟨q, hq, hmap⟩
  by_cases hqk : (q.1 == k) = true
  · rw [if_pos hqk] at hmap
    subst hmap
    have := hl t ht
    exact ⟨this.1, (beq_iff_eq.1 hqk) ▸ this.2⟩
  · rw [if_neg hqk] at hmap
    subst hmap
    exact hg q hq t ht

theorem goodOpens_dictAppend {d : List (Int × List Track)} {k : Int} {t : Track}
    (hg : goodOpens d) (ht : goodTrack t) (hlast : lastTo t = some k) :
    goodOpens (dictAppend d k t) := by
  unfold dictAppend
  cases hf : dictFind? d k with
  | some l =>
      refine goodOpens_dictSet hg ?_
      intro s hs
      rcases List.mem_append.1 hs with hs | hs
      · exact dictFind?_goodOpens hg hf s hs
      · rw [List.mem_singleton] at hs; subst hs; exact ⟨ht, hlast⟩
  | none =>
      intro p hp s hs
      rcases List.mem_append.1 hp with hp | hp
      · exact hg p hp s hs
      · rw [List.mem_singleton] at hp
        subst hp
        rw [List.mem_singleton] at hs
        subst hs
        exact ⟨ht, hlast⟩

theorem goodTrack_extend {t : Track} {L : Link}
    (ht : goodTrack t) (hlast : lastTo t = some L.from_node_id)
    (hcaus : L.t_exit ≤ L.t_entry) :
    goodTrack { t with links := t.links ++ [L] } ∧
      lastTo { t with links := t.links ++ [L] } = some L.to_node_id := by
  obtain ⟨h1, h2, h3⟩ := ht
  refine ⟨⟨by simp, ?_, ?_⟩, ?_⟩
  · unfold spatialChain at h2 ⊢
    rw [List.chain'_append]
    refine ⟨h2, List.chain'_singleton L, ?_⟩
    intro x hx y hy
    rw [List.head?_cons, Option.mem_some_iff] at hy
    subst hy
    unfold lastTo at hlast
    rw [Option.mem_def] at hx
    rw [hx, Option.map_some', Option.some_inj] at hlast
    exact hlast
  · unfold causalLinks at h3 ⊢
    intro M hM
    rcases List.mem_append.1 hM with hM | hM
    · exact h3 M hM
    · rw [List.mem_singleton] at hM; subst hM; exact hcaus
  · unfold lastTo
    rw [List.getLast?_concat, Option.map_some']

theorem goodTrack_single {L : Link} (hcaus : L.t_exit ≤ L.t_entry)
    (gen : ℕ → String) (cnt : ℕ) (cls : String) :
    goodTrack { freshTrack gen cnt cls with links := [L] } ∧
      lastTo { freshTrack gen cnt cls with links := [L] } = some L.to_node_id := by
  refine ⟨⟨by simp, List.chain'_singleton L, ?_⟩, rfl⟩
  intro M hM
  rw [List.mem_singleton] at hM
  subst hM
  exact hcaus

theorem processMatches_good (svc : TrackingService) (gen : ℕ → String)
    (exits entries : List PDet) :
    ∀ pairs st me mn out, goodState st →
      processMatches svc gen exits entries (build_cost_matrix svc exits entries)
        pairs st me mn = .ok out →
      goodState out.1 := by
  intro pairs
  induction pairs with
  | nil =>
      intro st me mn out hst hrun
      rw [processMatches, Except.ok.injEq] at hrun
      rw [← hrun]
      exact hst
  | cons rc rest ih =>
      intro st me mn out hst hrun
      obtain ⟨r, c⟩ := rc
      rw [processMatches] at hrun
      cases hcell : cellAt (build_cost_matrix svc exits entries) r c with
      | none =>
          rw [hcell] at hrun
          exact ih st me mn out hst hrun
      | some cost =>
          rw [hcell] at hrun
          cases he : exits[r]? with
          | none => rw [he] at hrun; cases hen : entries[c]? <;> rw [hen] at hrun <;> exact absurd hrun (by simp)
          | some e =>
              cases hen : entries[c]? with
              | none => rw [he, hen] at hrun; exact absurd hrun (by simp)
              | some en =>
                  rw [he, hen] at hrun
                  dsimp only at hrun
                  have hcaus : e.ts ≤ en.ts :=
                    cellAt_build_causal svc exits entries r c e en he hen cost hcell
                  cases hf : dictFind? st.open_tracks e.node_id with
                  | some stack =>
                      rw [hf, Option.getD_some] at hrun
                      cases hg : stack.getLast? with
                      | some t =>
                          rw [hg] at hrun
                          dsimp only at hrun
                          refine ih _ _ _ out ?_ hrun
                          refine ⟨hst.1, ?_⟩
                          have htm : t ∈ stack := List.mem_of_mem_getLast? (by rw [hg]; rfl)
                          have htg := dictFind?_goodOpens hst.2 hf t htm
                          have hext := goodTrack_extend (L :=
                            { from_node_id := e.node_id, to_node_id := en.node_id,
                              from_node_name := get_node_name svc e.node_id,
                              to_node_name := get_node_name svc en.node_id,
                              t_exit := e.ts, t_entry := en.ts,
                              confidence := compute_link_confidence e en cost,
                              reasons := generate_reasons svc e en cost })
                            htg.1 htg.2 hcaus
                          refine goodOpens_dictAppend ?_ hext.1 hext.2
                          refine goodOpens_dictSet hst.2 ?_
                          intro s hs
                          exact dictFind?_goodOpens hst.2 hf s (List.dropLast_subset stack hs)
                      | none =>
                          rw [hg] at hrun
                          dsimp only at hrun
                          refine ih _ _ _ out ?_ hrun
                          refine ⟨hst.1, ?_⟩
                          have hnew := goodTrack_single (L :=
                            { from_node_id := e.node_id, to_node_id := en.node_id,
                              from_node_name := get_node_name svc e.node_id,
                              to_node_name := get_node_name svc en.node_id,
                              t_exit := e.ts, t_entry := en.ts,
                              confidence := compute_link_confidence e en cost,
                              reasons := generate_reasons svc e en cost }) hcaus gen st.counter e.cls
                          exact goodOpens_dictAppend hst.2 hnew.1 hnew.2
                  | none =>
                      rw [hf, Option.getD_none] at hrun
                      dsimp only [List.getLast?] at hrun
                      refine ih _ _ _ out ?_ hrun
                      refine ⟨hst.1, ?_⟩
                      have hnew := goodTrack_single (L :=
                        { from_node_id := e.node_id, to_node_id := en.node_id,
                          from_node_name := get_node_name svc e.node_id,
                          to_node_name := get_node_name svc en.node_id,
                          t_exit := e.ts, t_entry := en.ts,
                          confidence := compute_link_confidence e en cost,
                          reasons := generate_reasons svc e en cost }) hcaus gen st.counter e.cls
                      exact goodOpens_dictAppend hst.2 hnew.1 hnew.2

theorem finalizeUnmatched_good (matched : List ℕ) :
    ∀ es i st out, goodState st →
      finalizeUnmatched matched es i st = .ok out → goodState out := by
  intro es
  induction es with
  | nil =>
      intro i st out hst hrun
      rw [finalizeUnmatched, Except.ok.injEq] at hrun
      rw [← hrun]; exact hst
  | cons e rest ih =>
      intro i st out hst hrun
      rw [finalizeUnmatched] at hrun
      by_cases hm : i ∈ matched
      · rw [if_pos hm] at hrun
        exact ih (i + 1) st out hst hrun
      · rw [if_neg hm] at hrun
        cases hf : dictFind? st.open_tracks e.node_id with
        | none =>
            rw [hf] at hrun
            exact ih (i + 1) st out hst hrun
        | some stack =>
            rw [hf] at hrun
            dsimp only at hrun
            cases hg : stack.getLast? with
            | none => rw [hg] at hrun; exact absurd hrun (by simp)
            | some t =>
                rw [hg] at hrun
                dsimp only at hrun
                have htm : t ∈ stack := List.mem_of_mem_getLast? (by rw [hg]; rfl)
                have htg := dictFind?_goodOpens hst.2 hf t htm
                refine ih (i + 1) _ out ?_ hrun
                refine ⟨?_, ?_⟩
                · intro s hs
                  rcases List.mem_append.1 hs with hs | hs
                  · exact hst.1 s hs
                  · rw [List.mem_singleton] at hs
                    subst hs
                    exact goodTrack_finalize htg.1
                · refine goodOpens_dictSet hst.2 ?_
                  intro s hs
                  exact dictFind?_goodOpens hst.2 hf s (List.dropLast_subset stack hs)

theorem processTransition_good (svc : TrackingService) (gen : ℕ → String)
    (st : AssocState) (prev curr : List PDet) (out : AssocState)
    (hst : goodState st) (hrun : processTransition svc gen st prev curr = .ok out) :
    goodState out := by
  unfold processTransition at hrun
  by_cases hempty : ((extractExits prev).isEmpty || (extractEntries curr).isEmpty) = true
  · rw [if_pos hempty, Except.ok.injEq] at hrun
    rw [← hrun]; exact hst
  · rw [if_neg hempty] at hrun
    by_cases hinf : ((build_cost_matrix svc (extractExits prev) (extractEntries curr)).all
        fun row => row.all (·.isNone)) = true
    · rw [if_pos hinf, Except.ok.injEq] at hrun
      rw [← hrun]; exact hst
    · rw [if_neg hinf] at hrun
      cases hsolve : linear_sum_assignment
          (build_cost_matrix svc (extractExits prev) (extractEntries curr)) with
      | error msg => rw [hsolve] at hrun; exact absurd hrun (by simp)
      | ok pairs =>
          rw [hsolve] at hrun
          dsimp only at hrun
          cases hpm : processMatches svc gen (extractExits prev) (extractEntries curr)
              (build_cost_matrix svc (extractExits prev) (extractEntries curr))
              pairs st [] [] with
          | error msg => rw [hpm] at hrun; exact absurd hrun (by simp)
          | ok o =>
              rw [hpm] at hrun
              dsimp only at hrun
              have hgood := processMatches_good svc gen (extractExits prev)
                (extractEntries curr) pairs st [] [] o hst hpm
              exact finalizeUnmatched_good o.2.1 (extractExits prev) 0 o.1 out hgood hrun

theorem assocLoop_good (svc : TrackingService) (gen : ℕ → String) :
    ∀ windows st out, goodState st →
      assocLoop svc gen windows st = .ok out → goodState out := by
  intro windows
  induction windows with
  | nil =>
      intro st out hst hrun
      have hrfl : assocLoop svc gen [] st = Except.ok st := rfl
      rw [hrfl, Except.ok.injEq] at hrun
      rw [← hrun]; exact hst
  | cons w1 rest ih =>
      intro st out hst hrun
      cases rest with
      | nil =>
          have hrfl : assocLoop svc gen [w1] st = Except.ok st := rfl
          rw [hrfl, Except.ok.injEq] at hrun
          rw [← hrun]; exact hst
      | cons w2 rest' =>
          rw [assocLoop] at hrun
          cases htr : processTransition svc gen st w1 w2 with
          | error msg => rw [htr] at hrun; exact absurd hrun (by simp)
          | ok st' =>
              rw [htr] at hrun
              exact ih st' out (processTransition_good svc gen st w1 w2 st' hst htr) hrun

theorem final_fold_good (d : List (Int × List Track)) :
    ∀ acc, (∀ t ∈ acc, goodTrack t) → goodOpens d →
      ∀ t ∈ d.foldl (fun acc p => acc ++ p.2.map finalize_track) acc, goodTrack t := by
  induction d with
  | nil => intro acc hacc _ t ht; exact hacc t ht
  | cons p d ih =>
      intro acc hacc hd t ht
      rw [List.foldl_cons] at ht
      refine ih (acc ++ p.2.map finalize_track) ?_ ?_ t ht
      · intro s hs
        rcases List.mem_append.1 hs with hs | hs
        · exact hacc s hs
        · rcases List.mem_map.1 hs with ⟨u, hu, hmap⟩
          exact hmap ▸ goodTrack_finalize (hd p (List.mem_cons_self p d) u hu).1
      · intro q hq s hs
        exact hd q (List.mem_cons_of_mem p hq) s hs

theorem associate_good (svc : TrackingService) (gen : ℕ → String)
    (dets : List RawDet) (ts : List Track)
    (h : associate_detections svc gen dets = .ok ts) :
    ∀ t ∈ ts, goodTrack t := by
  unfold associate_detections at h
  by_cases h0 : dets.isEmpty = true
  · rw [if_pos h0, Except.ok.injEq] at h
    rw [← h]; intro t ht; exact absurd ht (List.not_mem_nil t)
  · rw [if_neg h0] at h
    by_cases h1 : (parseDetections dets).isEmpty = true
    · rw [if_pos h1, Except.ok.injEq] at h
      rw [← h]; intro t ht; exact absurd ht (List.not_mem_nil t)
    · rw [if_neg h1] at h
      dsimp only at h
      cases hloop : assocLoop svc gen (makeWindows (sortByTs (parseDetections dets)))
          { tracks := [], open_tracks := [], counter := 0 } with
      | error msg => rw [hloop] at h; exact absurd h (by simp)
      | ok st =>
          rw [hloop, Except.ok.injEq] at h
          have hgood : goodState st := by
            refine assocLoop_good svc gen _ _ st ?_ hloop
            exact ⟨fun t ht => absurd ht (List.not_mem_nil t),
              fun p hp => absurd hp (List.not_mem_nil p)⟩
          rw [← h]
          exact final_fold_good st.open_tracks st.tracks hgood.1 hgood.2

/-! Commutation of the run with track-id renaming (claim C3): the uuid stream
only ever lands in the `track_id` field, so renaming ids commutes with the
whole association pipeline. -/

theorem finalize_mapTrackId (f : String → String) (t : Track) :
    finalize_track (mapTrackId f t) = mapTrackId f (finalize_track t) := rfl

theorem freshTrack_mapGen (f : String → String) (gen : ℕ → String) (cnt : ℕ) (cls : String) :
    freshTrack (f ∘ gen) cnt cls = mapTrackId f (freshTrack gen cnt cls) := rfl

theorem mapTrackId_extend (f : String → String) (t : Track) (L : Link) :
    { mapTrackId f t with links := (mapTrackId f t).links ++ [L] } =
      mapTrackId f { t with links := t.links ++ [L] } := rfl

theorem dictFind?_mapOpens (f : String → String) (d : List (Int × List Track)) (k : Int) :
    dictFind? (mapOpens f d) k = (dictFind? d k).map (List.map (mapTrackId f)) := by
  induction d with
  | nil => rfl
  | cons p d ih =>
      simp only [mapOpens, List.map_cons]
      unfold dictFind?
      rw [List.find?_cons, List.find?_cons]
      dsimp only
      cases hk : (p.1 == k) with
      | true => rfl
      | false => simpa [dictFind?, mapOpens] using ih

theorem dictSet_mapOpens (f : String → String) (d : List (Int × List Track))
    (k : Int) (l : List Track) :
    dictSet (mapOpens f d) k (l.map (mapTrackId f)) = mapOpens f (dictSet d k l) := by
  unfold dictSet mapOpens
  rw [List.map_map, List.map_map]
  congr 1
  funext q
  by_cases hq : q.1 = k
  · simp [Function.comp_def, hq]
  · simp [Function.comp_def, hq]

theorem dictAppend_mapOpens (f : String → String) (d : List (Int × List Track))
    (k : Int) (t : Track) :
    dictAppend (mapOpens f d) k (mapTrackId f t) = mapOpens f (dictAppend d k t) := by
  unfold dictAppend
  rw [dictFind?_mapOpens]
  cases hf : dictFind? d k with
  | some l =>
      dsimp only [Option.map_some']
      have h1 : l.map (mapTrackId f) ++ [mapTrackId f t] = (l ++ [t]).map (mapTrackId f) := by
        simp
      rw [h1]
      exact dictSet_mapOpens f d k (l ++ [t])
  | none =>
      dsimp only [Option.map_none']
      show mapOpens f d ++ [(k, [mapTrackId f t])] = mapOpens f (d ++ [(k, [t])])
      unfold mapOpens
      rw [List.map_append]
      rfl

theorem processMatches_mapGen (svc : TrackingService) (f : String → String)
    (gen : ℕ → String) (exits entries : List PDet) (C : List (List (Option ℚ))) :
    ∀ pairs st me mn,
      processMatches svc (f ∘ gen) exits entries C pairs (mapState f st) me mn =
        (processMatches svc gen exits entries C pairs st me mn).map
          (fun o => (mapState f o.1, o.2)) := by
  intro pairs
  induction pairs with
  | nil => intro st me mn; rfl
  | cons rc rest ih =>
      intro st me mn
      obtain ⟨r, c⟩ := rc
      rw [processMatches, processMatches]
      cases hcell : cellAt C r c with
      | none => exact ih st me mn
      | some cost =>
          cases he : exits[r]? with
          | none => cases hen : entries[c]? <;> rfl
          | some e =>
              cases hen : entries[c]? with
              | none => rfl
              | some en =>
                  dsimp only
                  rw [show (mapState f st).open_tracks = mapOpens f st.open_tracks from rfl,
                    dictFind?_mapOpens]
                  cases hf : dictFind? st.open_tracks e.node_id with
                  | some stack =>
                      dsimp only [Option.map_some', Option.getD_some]
                      rw [List.getLast?_map]
                      cases hg : stack.getLast? with
                      | some t =>
                          dsimp only [Option.map_some']
                          rw [← List.map_dropLast, dictSet_mapOpens, mapTrackId_extend,
                            dictAppend_mapOpens]
                          exact ih ⟨st.tracks,
                            dictAppend (dictSet st.open_tracks e.node_id stack.dropLast)
                              en.node_id
                              { t with links := t.links ++
                                [⟨e.node_id, en.node_id, get_node_name svc e.node_id,
                                  get_node_name svc en.node_id, e.ts, en.ts,
                                  compute_link_confidence e en cost,
                                  generate_reasons svc e en cost⟩] },
                            st.counter⟩ (me ++ [r]) (mn ++ [c])
                      | none =>
                          dsimp only [Option.map_none']
                          rw [show (mapState f st).counter = st.counter from rfl,
                            freshTrack_mapGen, mapTrackId_extend, dictAppend_mapOpens]
                          exact ih ⟨st.tracks,
                            dictAppend st.open_tracks en.node_id
                              { freshTrack gen st.counter e.cls with links :=
                                (freshTrack gen st.counter e.cls).links ++
                                [⟨e.node_id, en.node_id, get_node_name svc e.node_id,
                                  get_node_name svc en.node_id, e.ts, en.ts,
                                  compute_link_confidence e en cost,
                                  generate_reasons svc e en cost⟩] },
                            st.counter + 1⟩ (me ++ [r]) (mn ++ [c])
                  | none =>
                      dsimp only [Option.map_none', Option.getD_none, List.getLast?]
                      rw [show (mapState f st).counter = st.counter from rfl,
                        freshTrack_mapGen, mapTrackId_extend, dictAppend_mapOpens]
                      exact ih ⟨st.tracks,
                        dictAppend st.open_tracks en.node_id
                          { freshTrack gen st.counter e.cls with links :=
                            (freshTrack gen st.counter e.cls).links ++
                            [⟨e.node_id, en.node_id, get_node_name svc e.node_id,
                              get_node_name svc en.node_id, e.ts, en.ts,
                              compute_link_confidence e en cost,
                              generate_reasons svc e en cost⟩] },
                        st.counter + 1⟩ (me ++ [r]) (mn ++ [c])

theorem finalizeUnmatched_mapGen (f : String → String) (matched : List ℕ) :
    ∀ es i st,
      finalizeUnmatched matched es i (mapState f st) =
        (finalizeUnmatched matched es i st).map (mapState f) := by
  intro es
  induction es with
  | nil => intro i st; rfl
  | cons e rest ih =>
      intro i st
      rw [finalizeUnmatched, finalizeUnmatched]
      by_cases hm : i ∈ matched
      · rw [if_pos hm, if_pos hm]
        exact ih (i + 1) st
      · rw [if_neg hm, if_neg hm]
        rw [show (mapState f st).open_tracks = mapOpens f st.open_tracks from rfl,
          dictFind?_mapOpens]
        cases hf : dictFind? st.open_tracks e.node_id with
        | none => exact ih (i + 1) st
        | some stack =>
            dsimp only [Option.map_some']
            rw [List.getLast?_map]
            cases hg : stack.getLast? with
            | none => rfl
            | some t =>
                dsimp only [Option.map_some']
                rw [← List.map_dropLast, dictSet_mapOpens]
                have h1 : (mapState f st).tracks ++ [finalize_track (mapTrackId f t)] =
                    (st.tracks ++ [finalize_track t]).map (mapTrackId f) := by
                  rw [show (mapState f st).tracks = st.tracks.map (mapTrackId f) from rfl,
                    finalize_mapTrackId, List.map_append]
                  rfl
                rw [h1]
                exact ih (i + 1) ⟨st.tracks ++ [finalize_track t],
                  dictSet st.open_tracks e.node_id stack.dropLast, st.counter⟩

theorem processTransition_mapGen (svc : TrackingService) (f : String → String)
    (gen : ℕ → String) (st : AssocState) (prev curr : List PDet) :
    processTransition svc (f ∘ gen) (mapState f st) prev curr =
      (processTransition svc gen st prev curr).map (mapState f) := by
  unfold processTransition
  by_cases hempty : ((extractExits prev).isEmpty || (extractEntries curr).isEmpty) = true
  · rw [if_pos hempty, if_pos hempty]; rfl
  · rw [if_neg hempty, if_neg hempty]
    by_cases hinf : ((build_cost_matrix svc (extractExits prev) (extractEntries curr)).all
        fun row => row.all (·.isNone)) = true
    · rw [if_pos hinf, if_pos hinf]; rfl
    · rw [if_neg hinf, if_neg hinf]
      cases hsolve : linear_sum_assignment
          (build_cost_matrix svc (extractExits prev) (extractEntries curr)) with
      | error msg => rfl
      | ok pairs =>
          dsimp only
          rw [processMatches_mapGen]
          cases hpm : processMatches svc gen (extractExits prev) (extractEntries curr)
              (build_cost_matrix svc (extractExits prev) (extractEntries curr))
              pairs st [] [] with
          | error msg => rfl
          | ok o =>
              obtain ⟨st', me', mn'⟩ := o
              dsimp only [Except.map]
              exact finalizeUnmatched_mapGen f me' (extractExits prev) 0 st'

theorem assocLoop_mapGen (svc : TrackingService) (f : String → String) (gen : ℕ → String) :
    ∀ windows st,
      assocLoop svc (f ∘ gen) windows (mapState f st) =
        (assocLoop svc gen windows st).map (mapState f) := by
  intro windows
  induction windows with
  | nil => intro st; rfl
  | cons w1 rest ih =>
      intro st
      cases rest with
      | nil => rfl
      | cons w2 rest' =>
          rw [assocLoop, assocLoop, processTransition_mapGen]
          cases htr : processTransition svc gen st w1 w2 with
          | error msg => rfl
          | ok st' =>
              dsimp only [Except.map]
              exact ih st'

theorem map_finalize_mapTrackId (f : String → String) (l : List Track) :
    (l.map (mapTrackId f)).map finalize_track = (l.map finalize_track).map (mapTrackId f) := by
  induction l with
  | nil => rfl
  | cons a l ihl => simp only [List.map_cons, ihl, finalize_mapTrackId]

theorem final_fold_mapGen (f : String → String) (d : List (Int × List Track)) :
    ∀ acc : List Track,
      (mapOpens f d).foldl (fun acc p => acc ++ p.2.map finalize_track)
          (acc.map (mapTrackId f)) =
        (d.foldl (fun acc p => acc ++ p.2.map finalize_track) acc).map (mapTrackId f) := by
  induction d with
  | nil => intro acc; rfl
  | cons p d ih =>
      intro acc
      rw [show mapOpens f (p :: d) = (p.1, p.2.map (mapTrackId f)) :: mapOpens f d from rfl,
        List.foldl_cons, List.foldl_cons]
      have h1 : acc.map (mapTrackId f) ++ (p.2.map (mapTrackId f)).map finalize_track =
          (acc ++ p.2.map finalize_track).map (mapTrackId f) := by
        rw [List.map_append, map_finalize_mapTrackId]
      rw [h1]
      exact ih (acc ++ p.2.map finalize_track)

theorem associate_mapGen (svc : TrackingService) (f : String → String)
    (gen : ℕ → String) (dets : List RawDet) :
    associate_detections svc (f ∘ gen) dets =
      (associate_detections svc gen dets).map (List.map (mapTrackId f)) := by
  unfold associate_detections
  by_cases h0 : dets.isEmpty = true
  · rw [if_pos h0, if_pos h0]; rfl
  · rw [if_neg h0, if_neg h0]
    by_cases h1 : (parseDetections dets).isEmpty = true
    · rw [if_pos h1, if_pos h1]; rfl
    · rw [if_neg h1, if_neg h1]
      dsimp only
      conv_lhs => rw [show ({ tracks := [], open_tracks := [], counter := 0 } : AssocState) =
        mapState f { tracks := [], open_tracks := [], counter := 0 } from rfl]
      rw [assocLoop_mapGen]
      cases hloop : assocLoop svc gen (makeWindows (sortByTs (parseDetections dets)))
          { tracks := [], open_tracks := [], counter := 0 } with
      | error msg => rfl
      | ok st =>
          dsimp only [Except.map]
          rw [show (mapState f st).open_tracks = mapOpens f st.open_tracks from rfl,
            show (mapState f st).tracks = st.tracks.map (mapTrackId f) from rfl,
            final_fold_mapGen]

/-! Claim theorems. -/

/-- C1: on a chronologically sorted sequence of parsed detections the window
construction of `associate_detections` partitions the sequence — the windows
concatenate back to the input and each window is nonempty — and any two
consecutive detections placed in the same window are at most 5 seconds apart;
together with the partition property this means a gap of more than 5 seconds
between consecutive detections always starts a new window. -/
theorem c1_window_partition (l : List PDet) (h : List.Pairwise tsLE l) :
    (makeWindows l).flatten = l ∧
      ∀ w ∈ makeWindows l, List.Chain' gapLE w ∧ w ≠ [] :=
  ⟨makeWindows_flatten l, makeWindows_chain l h⟩

/-- Witness for C1 at the spec's windowing scenario t = 0, 2, 4, 20, 22. -/
theorem c1_window_partition_witness :
    List.Pairwise tsLE detsWindowing ∧
      ((makeWindows detsWindowing).flatten = detsWindowing ∧
        ∀ w ∈ makeWindows detsWindowing, List.Chain' gapLE w ∧ w ≠ []) :=
  ⟨by decide, c1_window_partition detsWindowing (by decide)⟩

/-- C2: `build_cost_matrix` on m exits and n entries returns an m×n matrix; a
cell is finite exactly when the exit and entry nodes differ, a shortest-path
distance exists, the entry is not before the exit, and the actual transit time
lies in `[0.3·expected, 3·expected + time_pad]` with
`expected = dist / normal_speed`; every finite cell equals
`w_dist·dist_dev + w_time·time_dev` with
`time_dev = |actual − expected| / max(expected, 1)`. -/
theorem c2_cost_matrix (svc : TrackingService) (exits entries : List PDet)
    (i j : ℕ) (e en : PDet) (he : exits[i]? = some e) (hen : entries[j]? = some en) :
    ((build_cost_matrix svc exits entries).length = exits.length ∧
      ∀ row ∈ build_cost_matrix svc exits entries, row.length = entries.length) ∧
    ∀ v, cellAt (build_cost_matrix svc exits entries) i j = some v ↔
      (e.node_id ≠ en.node_id ∧
        ∃ dist, get_distance svc e.node_id en.node_id = some dist ∧
          0 ≤ en.ts - e.ts ∧
          dist / svc.speed.normal_mps * (3/10) ≤ en.ts - e.ts ∧
          en.ts - e.ts ≤ dist / svc.speed.normal_mps * 3 + svc.speed.time_pad_s ∧
          v = svc.assoc.dist_weight * (if 0 < dist then |dist - 20| / 30 else 0) +
              svc.assoc.time_weight *
                (|(en.ts - e.ts) - dist / svc.speed.normal_mps| /
                  max (dist / svc.speed.normal_mps) 1)) := by
  refine ⟨⟨by simp [build_cost_matrix], ?_⟩,
    fun v => cellAt_build_iff svc exits entries i j e en he hen v⟩
  intro row hr
  unfold build_cost_matrix at hr
  rcases List.mem_map.1 hr with ⟨q, hq, hrow⟩
  rw [← hrow]
  simp

/-- Witness for C2 at the two-node scenario, cell (0,0). -/
theorem c2_cost_matrix_witness :
    ([exitA][0]? = some exitA ∧ [entryB][0]? = some entryB) ∧
      (((build_cost_matrix svcAB [exitA] [entryB]).length = [exitA].length ∧
        ∀ row ∈ build_cost_matrix svcAB [exitA] [entryB], row.length = [entryB].length) ∧
      ∀ v, cellAt (build_cost_matrix svcAB [exitA] [entryB]) 0 0 = some v ↔
        (exitA.node_id ≠ entryB.node_id ∧
          ∃ dist, get_distance svcAB exitA.node_id entryB.node_id = some dist ∧
            0 ≤ entryB.ts - exitA.ts ∧
            dist / svcAB.speed.normal_mps * (3/10) ≤ entryB.ts - exitA.ts ∧
            entryB.ts - exitA.ts ≤ dist / svcAB.speed.normal_mps * 3 + svcAB.speed.time_pad_s ∧
            v = svcAB.assoc.dist_weight * (if 0 < dist then |dist - 20| / 30 else 0) +
                svcAB.assoc.time_weight *
                  (|(entryB.ts - exitA.ts) - dist / svcAB.speed.normal_mps| /
                    max (dist / svcAB.speed.normal_mps) 1))) :=
  ⟨⟨rfl, rfl⟩, c2_cost_matrix svcAB [exitA] [entryB] 0 0 exitA entryB rfl rfl⟩

/-- C3 counterexample: the source draws `track_id` from `uuid.uuid4()`, so two
executions on the identical detection batch differ whenever the uuid stream
differs — here modelled by two constant streams — refuting "every field of
every returned track, including track_id, is equal across the two runs". -/
theorem c3_determinism_counterexample :
    (associate_detections svcAB (fun _ => "run-one") detsAB).map
        (List.map fun t => t.track_id) = Except.ok ["run-one"] ∧
      (associate_detections svcAB (fun _ => "run-two") detsAB).map
        (List.map fun t => t.track_id) = Except.ok ["run-two"] ∧
      associate_detections svcAB (fun _ => "run-one") detsAB ≠
        associate_detections svcAB (fun _ => "run-two") detsAB := by
  have h1 : (associate_detections svcAB (fun _ => "run-one") detsAB).map
      (List.map fun t => t.track_id) = Except.ok ["run-one"] := by
    with_unfolding_all rfl
  have h2 : (associate_detections svcAB (fun _ => "run-two") detsAB).map
      (List.map fun t => t.track_id) = Except.ok ["run-two"] := by
    with_unfolding_all rfl
  refine ⟨h1, h2, fun h => ?_⟩
  rw [h] at h1
  have h3 := h2.symm.trans h1
  injection h3 with h4
  exact absurd h4 (by decide)

/-- C3 (amended): modulo the externally drawn track ids, association is
deterministic — two runs on the identical detection batch agree on every field
of every track except `track_id`, whatever uuid streams the two runs draw. -/
theorem c3_determinism_modulo_ids (svc : TrackingService) (g1 g2 : ℕ → String)
    (dets : List RawDet) :
    (associate_detections svc g1 dets).map (List.map eraseTrackId) =
      (associate_detections svc g2 dets).map (List.map eraseTrackId) :=
  (associate_mapGen svc (fun _ => "") g1 dets).symm.trans
    (associate_mapGen svc (fun _ => "") g2 dets)

/-- C4 (code bug): at a window transition the unmatched-exit loop checks only
key presence (`node_id in open_tracks`) and not stack non-emptiness before
`pop()`; on this batch node 2's stack is emptied by an earlier unmatched exit,
and a later unmatched exit at node 2 pops the empty stack, so the whole call
raises IndexError instead of dropping the extra exit silently. -/
theorem c4_unmatched_exit_indexerror :
    associate_detections svcTwoComp genT detsPopTwice =
      Except.error "IndexError: pop from empty list" := by
  with_unfolding_all rfl

/-- C5 counterexample: a detection with a valid timestamp but a missing
`node_id` (a required field per the claim) is not skipped — it is silently
repaired with the substitute value `node_id = 1` and contributes to
association. -/
theorem c5_missing_field_counterexample :
    parseDetection rawMissingNode =
        ParseResult.ok { det_id := some "d-1", ts := 0, cls := "equipment",
                         node_id := 1, score := 9/10 } ∧
      parseDetections [rawMissingNode] =
        [{ det_id := some "d-1", ts := 0, cls := "equipment",
           node_id := 1, score := 9/10 }] :=
  ⟨by with_unfolding_all rfl, by with_unfolding_all rfl⟩

/-- C5 (amended): a detection whose timestamp is an unparseable string is
skipped with a diagnostic; one whose timestamp is missing or of another type
is skipped silently (no diagnostic); every detection with a parseable or
datetime timestamp is kept, with missing `class`, `node_id`, `score` silently
repaired by the defaults `'equipment'`, `1`, `0.8` and a missing `det_id` kept
as null; processing always continues with the remaining detections. -/
theorem c5_parse_characterization (r : RawDet) :
    (parseDetection r = .skippedWithWarning ↔ r.ts = .str none) ∧
      (parseDetection r = .skippedSilently ↔ (r.ts = .noneVal ∨ r.ts = .other)) ∧
      ∀ t : ℚ, (r.ts = .str (some t) ∨ r.ts = .dt t) →
        parseDetection r =
          .ok ⟨r.det_id, t, r.cls.getD "equipment", r.node_id.getD 1,
            r.score.getD (4/5)⟩ := by
  obtain ⟨rid, rts, rcls, rnid, rsc⟩ := r
  cases rts with
  | str p =>
      cases p with
      | none =>
          refine ⟨by simp [parseDetection], by simp [parseDetection], ?_⟩
          intro t ht
          rcases ht with ht | ht <;> simp at ht
      | some q =>
          refine ⟨by simp [parseDetection], by simp [parseDetection], ?_⟩
          intro t ht
          rcases ht with ht | ht
          · simp only [PyTs.str.injEq, Option.some.injEq] at ht
            subst ht
            rfl
          · simp at ht
  | dt q =>
      refine ⟨by simp [parseDetection], by simp [parseDetection], ?_⟩
      intro t ht
      rcases ht with ht | ht
      · simp at ht
      · simp only [PyTs.dt.injEq] at ht
        subst ht
        rfl
  | noneVal =>
      refine ⟨by simp [parseDetection], by simp [parseDetection], ?_⟩
      intro t ht
      rcases ht with ht | ht <;> simp at ht
  | other =>
      refine ⟨by simp [parseDetection], by simp [parseDetection], ?_⟩
      intro t ht
      rcases ht with ht | ht <;> simp at ht

/-- Witness for C5's amended characterization at a concrete datetime input. -/
theorem c5_parse_characterization_witness :
    ((rawDet 0 1).ts = .str (some 0) ∨ (rawDet 0 1).ts = .dt 0) ∧
      parseDetection (rawDet 0 1) =
        .ok ⟨some "d", 0, "equipment", 1, 4/5⟩ :=
  ⟨Or.inr rfl, (c5_parse_characterization (rawDet 0 1)).2.2 0 (Or.inr rfl)⟩

/-- C6: no link of any returned track has `t_entry` earlier than `t_exit`, and
a cost-matrix cell whose entry precedes its exit is always left infeasible
(so no link is ever materialized from it). -/
theorem c6_causality (svc : TrackingService) (gen : ℕ → String) (dets : List RawDet)
    (ts : List Track) (h : associate_detections svc gen dets = .ok ts) :
    (∀ t ∈ ts, ∀ L ∈ t.links, L.t_exit ≤ L.t_entry) ∧
      ∀ exits entries : List PDet, ∀ i j : ℕ, ∀ e en : PDet,
        exits[i]? = some e → entries[j]? = some en → en.ts < e.ts →
        cellAt (build_cost_matrix svc exits entries) i j = none := by
  constructor
  · intro t ht
    exact (associate_good svc gen dets ts h t ht).2.2
  · intro exits entries i j e en he hen hlt
    cases hc : cellAt (build_cost_matrix svc exits entries) i j with
    | none => rfl
    | some v =>
        have hle := cellAt_build_causal svc exits entries i j e en he hen v hc
        exact absurd hle (not_le.2 hlt)

/-- Witness for C6 at the two-node scenario. -/
theorem c6_causality_witness :
    associate_detections svcAB genT detsAB = Except.ok [trackAB] ∧
      ((∀ t ∈ [trackAB], ∀ L ∈ t.links, L.t_exit ≤ L.t_entry) ∧
        ∀ exits entries : List PDet, ∀ i j : ℕ, ∀ e en : PDet,
          exits[i]? = some e → entries[j]? = some en → en.ts < e.ts →
          cellAt (build_cost_matrix svcAB exits entries) i j = none) :=
  ⟨by with_unfolding_all rfl,
    c6_causality svcAB genT detsAB [trackAB] (by with_unfolding_all rfl)⟩

/-- C7: on two nodes 20 m apart with `normal_mps = 1.3`, an exit at A at t=0
and an entry at B at t=16 produce exactly one track with exactly one link A→B;
the cost cell equals `0.4 × |16 − 20/1.3| / (20/1.3) = 2/125 = 0.016` and the
link confidence is `round(1 − cost, 3) = 0.984`. -/
theorem c7_scenario :
    associate_detections svcAB genT detsAB = Except.ok [trackAB] ∧
      trackAB.links.map (fun L => (L.from_node_id, L.to_node_id, L.confidence)) =
        [(1, 2, 984/1000)] ∧
      cellAt (build_cost_matrix svcAB [exitA] [entryB]) 0 0 =
        some (2/5 * (|16 - 20 / (13/10)| / (20 / (13/10)))) ∧
      (984/1000 : ℚ) = pyRound3 (1 - 2/125) :=
  ⟨by with_unfolding_all rfl, by with_unfolding_all rfl,
    by with_unfolding_all rfl, by with_unfolding_all rfl⟩

/-- C8 counterexample: when one window transition matches both `1→2` and
`2→3`, the second match pops the track the first match just pushed, producing
consecutive links with `t_entry = 16` followed by `t_exit = 0`: the temporal
half of the claim (`t_entry_k ≤ t_exit_{k+1}`) fails on the code. -/
theorem c8_temporal_counterexample :
    associate_detections svcPath3 genT detsChain = Except.ok [trackChain] ∧
      trackChain.links.map (fun L => (L.t_exit, L.t_entry)) = [(0, 16), (0, 16)] ∧
      ¬ ∀ t ∈ [trackChain], List.Chain' (fun a b => a.t_entry ≤ b.t_exit) t.links := by
  refine ⟨by with_unfolding_all rfl, by with_unfolding_all rfl, fun hall => ?_⟩
  have hc := hall trackChain (List.mem_singleton.2 rfl)
  simp only [trackChain, List.chain'_cons, List.chain'_singleton, and_true] at hc
  norm_num at hc

/-- C8 (amended): in every returned track the links form a spatial chain —
link k's `to_node` equals link k+1's `from_node`; the temporal inequality of
the original claim does not hold on the code (see the counterexample: two
matches of one window transition can chain through a node, giving a later
link whose `t_exit` precedes the earlier link's `t_entry`). -/
theorem c8_spatial_chain (svc : TrackingService) (gen : ℕ → String)
    (dets : List RawDet) (ts : List Track)
    (h : associate_detections svc gen dets = .ok ts) :
    ∀ t ∈ ts, List.Chain' linkChained t.links :=
  fun t ht => (associate_good svc gen dets ts h t ht).2.1

/-- Witness for C8's amended spatial-chain property on the two-link track. -/
theorem c8_spatial_chain_witness :
    associate_detections svcPath3 genT detsChain = Except.ok [trackChain] ∧
      ∀ t ∈ [trackChain], List.Chain' linkChained t.links :=
  ⟨by with_unfolding_all rfl,
    c8_spatial_chain svcPath3 genT detsChain [trackChain] (by with_unfolding_all rfl)⟩

/-- C9 (code bug): on a transition whose cost matrix mixes finite and infinite
cells but admits no complete feasible assignment (every full matching uses an
infinite cell), the solver raises `ValueError("cost matrix is infeasible")`
and `associate_detections` propagates it instead of contributing no links and
completing normally; the all-infinite guard of line 307 does not cover this
case since the matrix is not all-infinite. -/
theorem c9_infeasible_matrix_error :
    associate_detections svcIsolated genT detsMixedInf =
        Except.error "cost matrix is infeasible" ∧
      extractExits ((makeWindows (sortByTs (parseDetections detsMixedInf))).headD []) =
        exitsMixed ∧
      extractEntries ((makeWindows (sortByTs (parseDetections detsMixedInf))).getD 1 []) =
        entriesMixed ∧
      ((build_cost_matrix svcIsolated exitsMixed entriesMixed).all
        fun row => row.all (·.isNone)) = false ∧
      linear_sum_assignment (build_cost_matrix svcIsolated exitsMixed entriesMixed) =
        Except.error "cost matrix is infeasible" :=
  ⟨by with_unfolding_all rfl, by with_unfolding_all rfl, by with_unfolding_all rfl,
    by with_unfolding_all rfl, by with_unfolding_all rfl⟩

/-- C10: every track in the list returned by `associate_detections` carries at
least one link — a fresh track is only created at the moment a feasible match
immediately appends its first link. -/
theorem c10_links_nonempty (svc : TrackingService) (gen : ℕ → String)
    (dets : List RawDet) (ts : List Track)
    (h : associate_detections svc gen dets = .ok ts) :
    ∀ t ∈ ts, t.links ≠ [] :=
  fun t ht => (associate_good svc gen dets ts h t ht).1

/-- Witness for C10 at the two-node scenario. -/
theorem c10_links_nonempty_witness :
    associate_detections svcAB genT detsAB = Except.ok [trackAB] ∧
      ∀ t ∈ [trackAB], t.links ≠ [] :=
  ⟨by with_unfolding_all rfl,
    c10_links_nonempty svcAB genT detsAB [trackAB] (by with_unfolding_all rfl)⟩

end SmartSpace
